import Mathlib

/-!
Shallow embedding of the streaming MP3 decoder front-end (`src/lib.rs` of
minimp3-rs): the `Pcm` sample buffer, the `decode_frame` step, the
refill-then-decode drive loops (blocking and suspending) and the `next_frame`
convenience wrapper.  The external decode primitive (`mp3dec_decode_frame`)
and the reader are modelled as oracles indexed by call count.
-/

namespace Minimp3

/-- `pub const MAX_SAMPLES_PER_FRAME: usize = ffi::MINIMP3_MAX_SAMPLES_PER_FRAME as usize;`
The ffi constant `MINIMP3_MAX_SAMPLES_PER_FRAME` is `1152*2` in minimp3.h. -/
def MAX_SAMPLES_PER_FRAME : Nat := 1152 * 2

/-- `const BUFFER_SIZE: usize = MAX_SAMPLES_PER_FRAME * 15;` (ring-buffer capacity). -/
def BUFFER_SIZE : Nat := MAX_SAMPLES_PER_FRAME * 15

/-- `const REFILL_TRIGGER: usize = MAX_SAMPLES_PER_FRAME * 8;` -/
def REFILL_TRIGGER : Nat := MAX_SAMPLES_PER_FRAME * 8

/-- Size of the refill scratch buffer: `buffer_refill: Box<[u8; MAX_SAMPLES_PER_FRAME * 5]>`. -/
def REFILL_SCRATCH : Nat := MAX_SAMPLES_PER_FRAME * 5

/-- Modelled from the spec: the error enum of the module `error`
(`src/error.rs` is not present under `src/`; `lib.rs` has `mod error;
pub use error::Error;`).  Spec section 7 lists the kinds `InsufficientData`,
`SkippedData`, `Eof`, `IoError` (wrapping the reader failure, reached via the
`?` conversion in `refill`) and `AllocationFailure`.  The io payload is an
opaque code. -/
inductive Error where
  | insufficientData
  | skippedData
  | eof
  | io (code : Nat)
  | allocationFailure
deriving DecidableEq, Repr

/-- `pub struct FrameInfo` of `lib.rs` (metadata only). -/
structure FrameInfo where
  sample_rate : Int
  channels : Nat
  layer : Nat
  bitrate : Int
deriving DecidableEq, Repr

/-- `pub struct Frame` of `lib.rs` (metadata plus owned interleaved samples). -/
structure Frame where
  data : List Int
  sample_rate : Int
  channels : Nat
  layer : Nat
  bitrate : Int
deriving DecidableEq, Repr

/-- One report of the decode primitive `ffi::mp3dec_decode_frame`: the return
value `samples`, the fields of `mp3dec_frame_info_t` that `lib.rs` reads
(`frame_bytes`, `hz`, `channels`, `layer`, `bitrate_kbps`), and the sample
values the primitive writes through the output pointer. -/
structure DecodeOut where
  samples : Nat
  frame_bytes : Nat
  hz : Int
  channels : Nat
  layer : Nat
  bitrate_kbps : Int
  pcm : List Int
deriving DecidableEq, Repr

/-- `pub struct Pcm { data: Vec<i16> }`. -/
structure Pcm where
  data : List Int
deriving DecidableEq, Repr

/-- `Pcm::new`: `Self { data: vec![0; MAX_SAMPLES_PER_FRAME] }`. -/
def Pcm.new : Pcm := ⟨List.replicate MAX_SAMPLES_PER_FRAME 0⟩

/-- The operations `decode_frame` uses on its generic output buffer
`O: ResizableBuf + InterleavedBufMut + InterleavedBuf<Sample = i16>`:
`try_reserve`, the raw interleaved write performed by the primitive through
`as_interleaved_mut_ptr`, and `set_interleaved_topology`. -/
structure BufOps (β : Type) where
  tryReserve : β → Nat → Bool × β
  write : β → List Int → β
  setTopology : β → Nat → Nat → β

/-- The primitive writing `out` interleaved samples through the raw pointer of
a `Pcm`: the written prefix replaces the front of `data`, the tail past the
written region is untouched. -/
def pcmWrite (p : Pcm) (out : List Int) : Pcm :=
  ⟨out ++ p.data.drop out.length⟩

/-- The `Pcm` instances of `lib.rs`: `try_reserve` calls `Vec::reserve` and
returns `true` unconditionally; `set_interleaved_topology` is
`// NB: do nothing.` -/
def PcmOps : BufOps Pcm where
  tryReserve p _ := (true, p)
  write := pcmWrite
  setTopology p _ _ := p

/-- `SliceDeque::truncate_front(keep)`: keep the last `keep` elements,
dropping the front; a no-op when `keep` is at least the length. -/
def truncateFront (l : List Nat) (keep : Nat) : List Nat :=
  l.drop (l.length - keep)

/-- The mutable decoder state the drive loop threads: the ring buffer
contents, and the call counters of the reader and of the decode primitive
(standing for the reader's and `mp3dec_t`'s internal states). -/
structure LoopSt where
  buffer : List Nat
  rIdx : Nat
  dIdx : Nat
deriving DecidableEq, Repr

/-- State of a freshly constructed decoder (`Decoder::new`): empty ring
buffer, no reads and no decode calls performed yet. -/
def initSt : LoopSt := ⟨[], 0, 0⟩

/-- The reader oracle: result of the n-th `read` call — an io error code or
the bytes placed into the destination slice. -/
abbrev Reader := Nat → Except Nat (List Nat)

/-- The decode-primitive oracle: report of the n-th `mp3dec_decode_frame`
call, given the ring-buffer contents passed to it. -/
abbrev DecPrim := Nat → List Nat → DecodeOut

/-- `Decoder::decode_frame` of `lib.rs`: reserve space, invoke the primitive,
set topology on success, build the `FrameInfo`, unconditionally truncate the
ring-buffer front by `frame_bytes`, then classify the outcome. -/
def decodeFrame {β : Type} (ops : BufOps β) (d : DecPrim) (st : LoopSt) (buf : β) :
    Except Error FrameInfo × LoopSt × β :=
  match ops.tryReserve buf MAX_SAMPLES_PER_FRAME with
  | (false, buf) => (.error .insufficientData, st, buf)
  | (true, buf) =>
    let out := d st.dIdx st.buffer
    let samples := out.samples
    let buf := ops.write buf out.pcm
    let buf := if samples > 0 then ops.setTopology buf out.channels samples else buf
    let frame : FrameInfo := ⟨out.hz, out.channels, out.layer, out.bitrate_kbps⟩
    let current_len := st.buffer.length
    let st := { st with
      buffer := truncateFront st.buffer (current_len - out.frame_bytes),
      dIdx := st.dIdx + 1 }
    if samples = 0 then
      if out.frame_bytes > 0 then (.error .skippedData, st, buf)
      else (.error .insufficientData, st, buf)
    else (.ok frame, st, buf)

/-- `Decoder::refill`: one `read` into the scratch slice of length
`REFILL_SCRATCH`, then append the read prefix to the ring buffer.  Returns
`bytes_read` and the new state; the reader call happens in either case. -/
def refill (r : Reader) (st : LoopSt) : Except Nat Nat × LoopSt :=
  match r st.rIdx with
  | .error e => (.error e, { st with rIdx := st.rIdx + 1 })
  | .ok bs =>
    let bytes := bs.take REFILL_SCRATCH
    (.ok bytes.length, { st with buffer := st.buffer ++ bytes, rIdx := st.rIdx + 1 })

/-- Result of one iteration of the drive loop: either the call finishes with
a result, or the loop spins around another time. -/
inductive IterResult (β : Type) where
  | done (res : Except Error FrameInfo) (st : LoopSt) (buf : β)
  | again (st : LoopSt) (buf : β)

/-- Decoder state after one loop iteration, whether it finished or not. -/
def IterResult.state {β : Type} : IterResult β → LoopSt
  | .done _ st _ => st
  | .again st _ => st

/-- Sample buffer after one loop iteration, whether it finished or not. -/
def IterResult.buf {β : Type} : IterResult β → β
  | .done _ _ b => b
  | .again _ b => b

/-- The `match self.decode_frame(pcm)` arm of the drive loop: success
returns, a transient error (`InsufficientData` or `SkippedData`) spins the
loop unless the refill of this iteration read 0 bytes (then `Eof`), any
other error returns. -/
def classify {β : Type} (ops : BufOps β) (d : DecPrim) (st : LoopSt) (buf : β)
    (bytesRead : Option Nat) : IterResult β :=
  match decodeFrame ops d st buf with
  | (.ok frame, st', buf') => .done (.ok frame) st' buf'
  | (.error e, st', buf') =>
    match e with
    | .insufficientData | .skippedData =>
      if bytesRead = some 0 then .done (.error .eof) st' buf' else .again st' buf'
    | e => .done (.error e) st' buf'

/-- One iteration of the `loop` in `next_frame_with_pcm`: refill when the
ring-buffer occupancy is below `REFILL_TRIGGER` (propagating an io error as
`Error::io` via `?`), then decode and classify. -/
def driveIter {β : Type} (ops : BufOps β) (r : Reader) (d : DecPrim)
    (st : LoopSt) (buf : β) : IterResult β :=
  if st.buffer.length < REFILL_TRIGGER then
    match refill r st with
    | (.error e, st') => .done (.error (.io e)) st' buf
    | (.ok n, st') => classify ops d st' buf (some n)
  else
    classify ops d st buf none

/-- `Decoder::next_frame_with_pcm` (blocking drive loop), with fuel standing
for the number of loop iterations the run is observed for; `none` means the
loop is still spinning after `fuel` iterations. -/
def nextFrameWithPcm {β : Type} (ops : BufOps β) (r : Reader) (d : DecPrim) :
    Nat → LoopSt → β → Option (Except Error FrameInfo × LoopSt × β)
  | 0, _, _ => none
  | fuel + 1, st, buf =>
    match driveIter ops r d st buf with
    | .done res st' buf' => some (res, st', buf')
    | .again st' buf' => nextFrameWithPcm ops r d fuel st' buf'

/-- `Decoder::refill_future`: same body as `refill`, with the read awaited. -/
def refillFuture (r : Reader) (st : LoopSt) : Except Nat Nat × LoopSt :=
  match r st.rIdx with
  | .error e => (.error e, { st with rIdx := st.rIdx + 1 })
  | .ok bs =>
    let bytes := bs.take REFILL_SCRATCH
    (.ok bytes.length, { st with buffer := st.buffer ++ bytes, rIdx := st.rIdx + 1 })

/-- One iteration of the `loop` in `next_frame_with_pcm_future`: identical
body, staging the read through `refillFuture`. -/
def driveIterFuture {β : Type} (ops : BufOps β) (r : Reader) (d : DecPrim)
    (st : LoopSt) (buf : β) : IterResult β :=
  if st.buffer.length < REFILL_TRIGGER then
    match refillFuture r st with
    | (.error e, st') => .done (.error (.io e)) st' buf
    | (.ok n, st') => classify ops d st' buf (some n)
  else
    classify ops d st buf none

/-- `Decoder::next_frame_with_pcm_future` (suspending drive loop). -/
def nextFrameWithPcmFuture {β : Type} (ops : BufOps β) (r : Reader) (d : DecPrim) :
    Nat → LoopSt → β → Option (Except Error FrameInfo × LoopSt × β)
  | 0, _, _ => none
  | fuel + 1, st, buf =>
    match driveIterFuture ops r d st buf with
    | .done res st' buf' => some (res, st', buf')
    | .again st' buf' => nextFrameWithPcmFuture ops r d fuel st' buf'

/-- `Decoder::next_frame`: allocate a fresh `Pcm`, delegate to
`next_frame_with_pcm`, move the pcm data into an owned `Frame`. -/
def nextFrame (r : Reader) (d : DecPrim) (fuel : Nat) (st : LoopSt) :
    Option (Except Error Frame × LoopSt) :=
  match nextFrameWithPcm PcmOps r d fuel st Pcm.new with
  | none => none
  | some (.error e, st', _) => some (.error e, st')
  | some (.ok fi, st', pcm) =>
    some (.ok ⟨pcm.data, fi.sample_rate, fi.channels, fi.layer, fi.bitrate⟩, st')

/-- `Decoder::next_frame_future`: the async convenience wrapper, delegating
to `next_frame_with_pcm_future`. -/
def nextFrameFuture (r : Reader) (d : DecPrim) (fuel : Nat) (st : LoopSt) :
    Option (Except Error Frame × LoopSt) :=
  match nextFrameWithPcmFuture PcmOps r d fuel st Pcm.new with
  | none => none
  | some (.error e, st', _) => some (.error e, st')
  | some (.ok fi, st', pcm) =>
    some (.ok ⟨pcm.data, fi.sample_rate, fi.channels, fi.layer, fi.bitrate⟩, st')

/-- `decode_frame` only fails with the two transient kinds: every error it
returns is `InsufficientData` or `SkippedData`. -/
theorem decodeFrame_err_range {β : Type} (ops : BufOps β) (d : DecPrim) (st : LoopSt)
    (buf : β) (e : Error) (st' : LoopSt) (buf' : β)
    (h : decodeFrame ops d st buf = (.error e, st', buf')) :
    e = .insufficientData ∨ e = .skippedData := by
  simp only [decodeFrame] at h
  split at h
  · simp only [Prod.mk.injEq, Except.error.injEq] at h
    exact Or.inl h.1.symm
  · split at h
    · split at h
      · cases h; exact Or.inr rfl
      · cases h; exact Or.inl rfl
    · cases h

/-- In every outcome branch of `decode_frame` that runs the primitive, the
resulting decoder state is the same: front-truncated buffer, decode counter
advanced. -/
theorem decodeFrame_state {β : Type} (ops : BufOps β) (d : DecPrim) (st : LoopSt)
    (buf : β) (b2 : β)
    (hres : ops.tryReserve buf MAX_SAMPLES_PER_FRAME = (true, b2)) :
    (decodeFrame ops d st buf).2.1 =
      { st with
        buffer := truncateFront st.buffer
          (st.buffer.length - (d st.dIdx st.buffer).frame_bytes),
        dIdx := st.dIdx + 1 } := by
  simp only [decodeFrame, hres]
  split
  · split <;> rfl
  · rfl

/-- A transient decode outcome: the two error kinds the drive loop absorbs. -/
def isTransient : Except Error FrameInfo → Prop
  | .error .insufficientData => True
  | .error .skippedData => True
  | _ => False

/-- An iteration that finished the call with `Eof`. -/
def isEofDone {β : Type} : IterResult β → Prop
  | .done (.error .eof) _ _ => True
  | _ => False

/-! Concrete oracles used to exercise the theorems on closed inputs. -/

/-- A primitive report with a successful decode: 2 samples per channel,
2 channels, 4 bytes consumed, writing samples `[1, 2, 3, 4]`. -/
def exDecOk : DecPrim := fun _ _ => ⟨2, 4, 44100, 2, 3, 128, [1, 2, 3, 4]⟩

/-- A primitive report with no samples and no bytes consumed. -/
def exDecNil : DecPrim := fun _ _ => ⟨0, 0, 0, 0, 0, 0, []⟩

/-- A reader delivering 4 bytes on every read. -/
def exReader4 : Reader := fun _ => .ok [0, 0, 0, 0]

/-- A reader at end of source: every read returns 0 bytes. -/
def exReader0 : Reader := fun _ => .ok []

/-- A decoder state with five buffered bytes. -/
def exSt5 : LoopSt := ⟨[9, 9, 9, 9, 9], 0, 0⟩

/-- C1: when the reservation succeeds, `decode_frame`'s outcome is classified
exactly by the primitive's report: `samples > 0` gives `Ok` with the
primitive's `hz`, `channels`, `layer` and `bitrate_kbps`; `samples = 0` with
`frame_bytes > 0` gives `SkippedData`; `samples = 0` with `frame_bytes = 0`
gives `InsufficientData`. -/
theorem decode_frame_outcome_classification {β : Type} (ops : BufOps β) (d : DecPrim)
    (st : LoopSt) (buf : β) (b2 : β)
    (hres : ops.tryReserve buf MAX_SAMPLES_PER_FRAME = (true, b2)) :
    (0 < (d st.dIdx st.buffer).samples →
      (decodeFrame ops d st buf).1 = .ok ⟨(d st.dIdx st.buffer).hz,
        (d st.dIdx st.buffer).channels, (d st.dIdx st.buffer).layer,
        (d st.dIdx st.buffer).bitrate_kbps⟩) ∧
    ((d st.dIdx st.buffer).samples = 0 → 0 < (d st.dIdx st.buffer).frame_bytes →
      (decodeFrame ops d st buf).1 = .error .skippedData) ∧
    ((d st.dIdx st.buffer).samples = 0 → (d st.dIdx st.buffer).frame_bytes = 0 →
      (decodeFrame ops d st buf).1 = .error .insufficientData) := by
  refine ⟨fun hs => ?_, fun h0 hfb => ?_, fun h0 hfb => ?_⟩
  · have h0 : ¬((d st.dIdx st.buffer).samples = 0) := by omega
    simp [decodeFrame, hres, h0]
  · simp [decodeFrame, hres, h0, hfb]
  · simp [decodeFrame, hres, h0, hfb]

/-- C1 witness: the classification evaluated on a concrete successful
decode. -/
theorem decode_frame_outcome_classification_witness :
    0 < (exDecOk 0 []).samples ∧
    (decodeFrame PcmOps exDecOk initSt Pcm.new).1 = .ok ⟨44100, 2, 3, 128⟩ :=
  ⟨by decide,
   (decode_frame_outcome_classification PcmOps exDecOk initSt Pcm.new Pcm.new rfl).1
     (by decide)⟩

/-- C3: whenever the primitive runs and reports `frame_bytes` not exceeding
the buffered length, the ring buffer after `decode_frame` — in every outcome,
transient errors included — is the previous contents with exactly
`frame_bytes` dropped from the front, so its new length plus `frame_bytes`
recovers the previous length (the difference never goes negative). -/
theorem ring_buffer_unconditional_truncation {β : Type} (ops : BufOps β) (d : DecPrim)
    (st : LoopSt) (buf : β) (b2 : β)
    (hres : ops.tryReserve buf MAX_SAMPLES_PER_FRAME = (true, b2))
    (hfb : (d st.dIdx st.buffer).frame_bytes ≤ st.buffer.length) :
    ((decodeFrame ops d st buf).2.1).buffer =
      st.buffer.drop (d st.dIdx st.buffer).frame_bytes ∧
    ((decodeFrame ops d st buf).2.1).buffer.length +
      (d st.dIdx st.buffer).frame_bytes = st.buffer.length := by
  rw [decodeFrame_state ops d st buf b2 hres]
  unfold truncateFront
  rw [Nat.sub_sub_self hfb]
  exact ⟨rfl, by rw [List.length_drop]; omega⟩

/-- C3 witness: a 5-byte buffer and a report consuming 4 bytes leave the
last byte, with the length equation holding. -/
theorem ring_buffer_unconditional_truncation_witness :
    (exDecOk 0 exSt5.buffer).frame_bytes ≤ exSt5.buffer.length ∧
    ((decodeFrame PcmOps exDecOk exSt5 Pcm.new).2.1).buffer = [9] ∧
    ((decodeFrame PcmOps exDecOk exSt5 Pcm.new).2.1).buffer.length +
      (exDecOk 0 exSt5.buffer).frame_bytes = exSt5.buffer.length :=
  ⟨by decide,
   (ring_buffer_unconditional_truncation PcmOps exDecOk exSt5 Pcm.new Pcm.new rfl
     (by decide)).1,
   (ring_buffer_unconditional_truncation PcmOps exDecOk exSt5 Pcm.new Pcm.new rfl
     (by decide)).2⟩

/-- The suspending refill computes the same function as the blocking one. -/
theorem refillFuture_eq_refill : refillFuture = refill := rfl

/-- One suspending loop iteration computes the same function as one blocking
iteration. -/
theorem driveIterFuture_eq_driveIter {β : Type} (ops : BufOps β) (r : Reader)
    (d : DecPrim) (st : LoopSt) (buf : β) :
    driveIterFuture ops r d st buf = driveIter ops r d st buf := rfl

/-- The suspending drive loop agrees with the blocking one on every fuel,
state and sample buffer. -/
theorem loopFuture_eq_loop {β : Type} (ops : BufOps β) (r : Reader) (d : DecPrim) :
    ∀ (fuel : Nat) (st : LoopSt) (buf : β),
      nextFrameWithPcmFuture ops r d fuel st buf = nextFrameWithPcm ops r d fuel st buf := by
  intro fuel
  induction fuel with
  | zero => intro st buf; rfl
  | succ n ih =>
    intro st buf
    simp only [nextFrameWithPcmFuture, nextFrameWithPcm,
      driveIterFuture_eq_driveIter]
    cases driveIter ops r d st buf with
    | done res st' buf' => rfl
    | again st' buf' => exact ih st' buf'

/-- The async convenience wrapper agrees with the blocking one. -/
theorem nextFrameFuture_eq_nextFrame (r : Reader) (d : DecPrim) (fuel : Nat)
    (st : LoopSt) : nextFrameFuture r d fuel st = nextFrame r d fuel st := by
  simp only [nextFrameFuture, nextFrame, loopFuture_eq_loop]

/-- C9: the blocking and suspending drive loops are semantically identical —
for the same initial state, reader results and primitive reports they return
the same result and leave the ring buffer and sample buffer in the same
state. -/
theorem blocking_suspending_loops_identical {β : Type} (ops : BufOps β) (r : Reader)
    (d : DecPrim) (fuel : Nat) (st : LoopSt) (buf : β) :
    nextFrameWithPcmFuture ops r d fuel st buf = nextFrameWithPcm ops r d fuel st buf :=
  loopFuture_eq_loop ops r d fuel st buf

/-- A finished classification never carries a transient error kind. -/
theorem classify_done_not_transient {β : Type} (ops : BufOps β) (d : DecPrim)
    (st : LoopSt) (buf : β) (br : Option Nat) (res : Except Error FrameInfo)
    (st' : LoopSt) (buf' : β)
    (h : classify ops d st buf br = .done res st' buf') :
    res ≠ .error .insufficientData ∧ res ≠ .error .skippedData := by
  unfold classify at h
  split at h
  · cases h; simp
  · split at h
    · split at h
      · cases h; simp
      · cases h
    · split at h
      · cases h; simp
      · cases h
    · cases h
      constructor <;> intro hc <;> simp_all

/-- A finished drive-loop iteration never carries a transient error kind. -/
theorem driveIter_done_not_transient {β : Type} (ops : BufOps β) (r : Reader)
    (d : DecPrim) (st : LoopSt) (buf : β) (res : Except Error FrameInfo)
    (st' : LoopSt) (buf' : β)
    (h : driveIter ops r d st buf = .done res st' buf') :
    res ≠ .error .insufficientData ∧ res ≠ .error .skippedData := by
  unfold driveIter at h
  split at h
  · split at h
    · cases h; simp
    · exact classify_done_not_transient _ _ _ _ _ _ _ _ h
  · exact classify_done_not_transient _ _ _ _ _ _ _ _ h

/-- A result of the drive loop is never a transient error kind. -/
theorem loop_result_not_transient {β : Type} (ops : BufOps β) (r : Reader)
    (d : DecPrim) : ∀ (fuel : Nat) (st : LoopSt) (buf : β) p,
    nextFrameWithPcm ops r d fuel st buf = some p →
      p.1 ≠ .error .insufficientData ∧ p.1 ≠ .error .skippedData := by
  intro fuel
  induction fuel with
  | zero => intro st buf p h; cases h
  | succ n ih =>
    intro st buf p h
    simp only [nextFrameWithPcm] at h
    cases hD : driveIter ops r d st buf with
    | done res st' buf' =>
      rw [hD] at h
      cases h
      exact driveIter_done_not_transient _ _ _ _ _ _ _ _ hD
    | again st' buf' =>
      rw [hD] at h
      exact ih st' buf' p h

/-- C7: for every reader, every primitive behaviour and every run length, a
result returned by `next_frame_with_pcm` or `next_frame` is never one of the
transient kinds `InsufficientData` or `SkippedData`. -/
theorem transient_errors_never_surfaced {β : Type} (ops : BufOps β) (r : Reader)
    (d : DecPrim) :
    (∀ (fuel : Nat) (st : LoopSt) (buf : β) p,
      nextFrameWithPcm ops r d fuel st buf = some p →
        p.1 ≠ .error .insufficientData ∧ p.1 ≠ .error .skippedData) ∧
    (∀ (fuel : Nat) (st : LoopSt) q,
      nextFrame r d fuel st = some q →
        q.1 ≠ .error .insufficientData ∧ q.1 ≠ .error .skippedData) := by
  refine ⟨loop_result_not_transient ops r d, ?_⟩
  intro fuel st q h
  simp only [nextFrame] at h
  cases hW : nextFrameWithPcm PcmOps r d fuel st Pcm.new with
  | none => rw [hW] at h; cases h
  | some p =>
    rw [hW] at h
    obtain ⟨res, st', pcm⟩ := p
    have hp := loop_result_not_transient PcmOps r d fuel st Pcm.new _ hW
    cases res with
    | ok fi => cases h; simp
    | error e =>
      cases h
      simp only [ne_eq, Except.error.injEq] at hp ⊢
      exact hp

/-- C7 witness: a concrete finished run (end-of-source reader) whose result
is `Eof`, not a transient kind. -/
theorem transient_errors_never_surfaced_witness :
    nextFrameWithPcm PcmOps exReader0 exDecNil 1 initSt Pcm.new =
      some (.error .eof, ⟨[], 1, 1⟩, Pcm.new) ∧
    (Except.error Error.eof : Except Error FrameInfo) ≠ .error .insufficientData :=
  ⟨rfl,
   ((transient_errors_never_surfaced PcmOps exReader0 exDecNil).1 1 initSt Pcm.new
     (.error .eof, ⟨[], 1, 1⟩, Pcm.new) rfl).1⟩

/-- A classification finishes with `Eof` exactly when this iteration's refill
read 0 bytes and the decode attempt failed transiently. -/
theorem classify_eof_iff {β : Type} (ops : BufOps β) (d : DecPrim) (st : LoopSt)
    (buf : β) (br : Option Nat) :
    isEofDone (classify ops d st buf br) ↔
      br = some 0 ∧ isTransient (decodeFrame ops d st buf).1 := by
  unfold classify
  rcases hD : decodeFrame ops d st buf with ⟨res, st', buf'⟩
  cases res with
  | ok fr => simp [isEofDone, isTransient, hD]
  | error e =>
    rcases decodeFrame_err_range ops d st buf e st' buf' hD with he | he <;>
      subst he <;>
      by_cases hbr : br = some 0 <;>
      simp [isEofDone, isTransient, hD, hbr]

/-- C2: the drive loop surfaces `Eof` exactly when, in the current iteration,
a refill read was performed (occupancy below the trigger), that read returned
0 bytes, and the decode attempt of the iteration failed transiently; in
particular, on a fresh decoder whose first read returns 0 bytes (empty input,
or a closed source) and whose primitive yields no samples on an empty buffer,
the first call returns `Eof` after a single iteration, for every remaining
fuel — no panic and no infinite loop. -/
theorem eof_exactly_on_zero_read_with_transient {β : Type} (ops : BufOps β)
    (r : Reader) (d : DecPrim) :
    (∀ (st : LoopSt) (buf : β),
      isEofDone (driveIter ops r d st buf) ↔
        (st.buffer.length < REFILL_TRIGGER ∧ (refill r st).1 = .ok 0 ∧
          isTransient (decodeFrame ops d (refill r st).2 buf).1)) ∧
    (r 0 = .ok [] → (d 0 []).samples = 0 → ∀ fuel : Nat,
      nextFrameWithPcm PcmOps r d (fuel + 1) initSt Pcm.new =
        some (.error .eof, ⟨[], 1, 1⟩, pcmWrite Pcm.new (d 0 []).pcm) ∧
      nextFrame r d (fuel + 1) initSt = some (.error .eof, ⟨[], 1, 1⟩)) := by
  constructor
  · intro st buf
    unfold driveIter
    by_cases hlt : st.buffer.length < REFILL_TRIGGER
    · simp only [if_pos hlt]
      rcases hR : refill r st with ⟨fst, st'⟩
      cases fst with
      | error e => simp [isEofDone]
      | ok n => simp [classify_eof_iff, hlt]
    · simp only [if_neg hlt, classify_eof_iff]
      constructor
      · rintro ⟨hn, -⟩; cases hn
      · rintro ⟨hl, -⟩; exact absurd hl hlt
  · intro hr0 hd0 fuel
    have hstep : driveIter PcmOps r d initSt Pcm.new =
        .done (.error .eof) ⟨[], 1, 1⟩ (pcmWrite Pcm.new (d 0 []).pcm) := by
      have hlt : (initSt.buffer).length < REFILL_TRIGGER := by decide
      have hre : refill r initSt = (.ok 0, ⟨[], 1, 0⟩) := by
        unfold refill initSt
        rw [show r 0 = .ok [] from hr0]
        rfl
      unfold driveIter
      rw [if_pos hlt, hre]
      unfold classify decodeFrame
      by_cases hfb : 0 < (d 0 []).frame_bytes <;>
        simp [PcmOps, hd0, hfb, truncateFront, initSt]
    constructor
    · simp only [nextFrameWithPcm, hstep]
    · simp only [nextFrame, nextFrameWithPcm, hstep]

/-- C2 witness: the closed-source reader and the no-progress primitive give
`Eof` on the first call with one unit of fuel. -/
theorem eof_exactly_on_zero_read_with_transient_witness :
    exReader0 0 = .ok [] ∧
    nextFrameWithPcm PcmOps exReader0 exDecNil 1 initSt Pcm.new =
      some (.error .eof, ⟨[], 1, 1⟩, pcmWrite Pcm.new []) ∧
    nextFrame exReader0 exDecNil 1 initSt = some (.error .eof, ⟨[], 1, 1⟩) :=
  ⟨rfl,
   ((eof_exactly_on_zero_read_with_transient PcmOps exReader0 exDecNil).2
     rfl rfl 0).1,
   ((eof_exactly_on_zero_read_with_transient PcmOps exReader0 exDecNil).2
     rfl rfl 0).2⟩

/-- C6 (evaluation of the code at the failing input): `Pcm::new` builds
`vec![0; MAX_SAMPLES_PER_FRAME]`, so the fresh buffer's content length is
`MAX_SAMPLES_PER_FRAME` = 2304, not zero — its deref is not the empty slice
the doc-test `assert_eq!(&pcm[..], &[])` claims. -/
theorem pcm_new_nonzero_length_eval :
    (Pcm.new).data.length = MAX_SAMPLES_PER_FRAME ∧
    MAX_SAMPLES_PER_FRAME = 2304 ∧ (Pcm.new).data ≠ [] := by
  refine ⟨by simp [Pcm.new], rfl, ?_⟩
  simp only [Pcm.new, ne_eq, List.replicate_eq_nil_iff]
  decide

/-- Writing the empty sample list leaves a `Pcm` unchanged. -/
theorem pcmWrite_nil (p : Pcm) : pcmWrite p [] = p := rfl

/-- In every outcome of `decode_frame` on a `Pcm`, the resulting sample
buffer is the old one with the primitive's output written over its front
(`set_interleaved_topology` does nothing). -/
theorem decodeFramePcm_buf (d : DecPrim) (st : LoopSt) (p : Pcm) :
    (decodeFrame PcmOps d st p).2.2 = pcmWrite p (d st.dIdx st.buffer).pcm := by
  by_cases h0 : (d st.dIdx st.buffer).samples = 0
  · by_cases hfb : 0 < (d st.dIdx st.buffer).frame_bytes <;>
      simp [decodeFrame, PcmOps, h0, hfb]
  · have hpos := Nat.pos_of_ne_zero h0
    simp [decodeFrame, PcmOps, h0, hpos]

/-- A primitive report that decodes 10 samples per channel over 2 channels,
consuming 5 bytes and writing 20 ones. -/
def c4Dec : DecPrim := fun _ _ => ⟨10, 5, 44100, 2, 3, 128, List.replicate 20 1⟩

/-- A reader delivering 5 bytes on every read. -/
def c4Reader : Reader := fun _ => .ok [7, 7, 7, 7, 7]

/-- C4 counterexample: a successful `next_frame_with_pcm` call (2 channels,
10 samples per channel) leaves the `Pcm` content length at 2304, not at
`channels * samples_in_frame = 20`. -/
theorem pcm_length_matches_topology_counterexample :
    nextFrameWithPcm PcmOps c4Reader c4Dec 1 initSt Pcm.new =
      some (.ok ⟨44100, 2, 3, 128⟩, ⟨[], 1, 1⟩,
        ⟨List.replicate 20 1 ++ List.replicate 2284 0⟩) ∧
    (List.replicate 20 (1 : Int) ++ List.replicate 2284 0).length ≠ 2 * 10 := by
  refine ⟨rfl, ?_⟩
  have h : (List.replicate 20 (1 : Int) ++ List.replicate 2284 0).length = 2304 := by
    rw [List.length_append, List.length_replicate, List.length_replicate]
  omega

/-- C4 amended: `Pcm`'s `set_interleaved_topology` does nothing, so after a
`decode_frame` on a `Pcm` the content is the primitive-written prefix
followed by the untouched previous tail, and — when the written prefix fits
the previous content — the content length is unchanged rather than set to
`channels * samples_in_frame`; stale samples of an earlier, larger frame
stay exposed past the new frame's data. -/
theorem pcm_topology_noop_stale_data (d : DecPrim) (st : LoopSt) (p : Pcm) :
    ((decodeFrame PcmOps d st p).2.2).data =
      (d st.dIdx st.buffer).pcm ++ p.data.drop (d st.dIdx st.buffer).pcm.length ∧
    ((d st.dIdx st.buffer).pcm.length ≤ p.data.length →
      ((decodeFrame PcmOps d st p).2.2).data.length = p.data.length) := by
  rw [decodeFramePcm_buf]
  unfold pcmWrite
  refine ⟨rfl, fun hle => ?_⟩
  simp only [List.length_append, List.length_drop]
  omega

/-- C4 amended witness: the 20-sample frame written into a fresh 2304-entry
buffer leaves the length at 2304. -/
theorem pcm_topology_noop_stale_data_witness :
    (c4Dec 0 []).pcm.length ≤ (Pcm.new).data.length ∧
    ((decodeFrame PcmOps c4Dec initSt Pcm.new).2.2).data.length =
      (Pcm.new).data.length :=
  ⟨by simp [c4Dec, Pcm.new]; decide,
   (pcm_topology_noop_stale_data c4Dec initSt Pcm.new).2
     (by simp [c4Dec, Pcm.new]; decide)⟩

/-- An output buffer whose capacity reservation fails:
`try_reserve` returns `false`. -/
def failOps : BufOps Unit :=
  ⟨fun b _ => (false, b), fun b _ => b, fun b _ _ => b⟩

/-- A reader delivering one byte on the first read, then 0 bytes. -/
def c5Reader : Reader := fun i => if i = 0 then .ok [0] else .ok []

/-- C5 counterexample: with a failing reservation, the first call does not
abort after its first iteration (the loop is still spinning at fuel 1), and
with one more iteration the run ends in `Eof` — the reservation failure was
retried and absorbed as a transient condition, not surfaced as a fatal
error. -/
theorem reserve_failure_fatal_counterexample :
    nextFrameWithPcm failOps c5Reader exDecNil 1 initSt () = none ∧
    nextFrameWithPcm failOps c5Reader exDecNil 2 initSt () =
      some (.error .eof, ⟨[0], 2, 0⟩, ()) :=
  ⟨rfl, rfl⟩

/-- C5 amended: a failed `try_reserve` makes `decode_frame` return the
transient kind `InsufficientData` (leaving the decoder state untouched),
which the drive loop absorbs like any other transient outcome — it retries,
and only a zero-byte refill turns it into `Eof`. -/
theorem reserve_failure_reported_transient {β : Type} (ops : BufOps β) (d : DecPrim)
    (st : LoopSt) (buf : β) (b2 : β)
    (hres : ops.tryReserve buf MAX_SAMPLES_PER_FRAME = (false, b2)) :
    decodeFrame ops d st buf = (.error .insufficientData, st, b2) := by
  simp [decodeFrame, hres]

/-- C5 amended witness: the failing buffer evaluated on a concrete state. -/
theorem reserve_failure_reported_transient_witness :
    failOps.tryReserve () MAX_SAMPLES_PER_FRAME = (false, ()) ∧
    decodeFrame failOps exDecNil initSt () = (.error .insufficientData, initSt, ()) :=
  ⟨rfl, reserve_failure_reported_transient failOps exDecNil initSt () () rfl⟩

/-- `decode_frame` never touches the reader: the read counter is
preserved. -/
theorem decodeFrame_rIdx {β : Type} (ops : BufOps β) (d : DecPrim) (st : LoopSt)
    (buf : β) : ((decodeFrame ops d st buf).2.1).rIdx = st.rIdx := by
  unfold decodeFrame
  split
  · rfl
  · dsimp only
    split
    · split <;> rfl
    · rfl

/-- Classification never touches the reader: the read counter is
preserved. -/
theorem classify_rIdx {β : Type} (ops : BufOps β) (d : DecPrim) (st : LoopSt)
    (buf : β) (br : Option Nat) :
    ((classify ops d st buf br).state).rIdx = st.rIdx := by
  have hd := decodeFrame_rIdx ops d st buf
  unfold classify
  split
  · simp_all [IterResult.state]
  · split
    · split <;> simp_all [IterResult.state]
    · split <;> simp_all [IterResult.state]
    · simp_all [IterResult.state]

/-- C8: internal sizing and refill policy.  The ring buffer is created with
capacity 15× the maximal frame size, the refill trigger is 8× and the
scratch buffer 5×; one loop iteration advances the read counter by exactly
one when the occupancy is below the trigger and by zero otherwise (one read
per iteration, if and only if below-trigger); a successful refill appends
the bytes staged through the scratch slice — never more than
`REFILL_SCRATCH` of them — to the back of the ring buffer. -/
theorem refill_policy_and_sizing :
    BUFFER_SIZE = 15 * MAX_SAMPLES_PER_FRAME ∧
    REFILL_TRIGGER = 8 * MAX_SAMPLES_PER_FRAME ∧
    REFILL_SCRATCH = 5 * MAX_SAMPLES_PER_FRAME ∧
    (∀ (β : Type) (ops : BufOps β) (r : Reader) (d : DecPrim) (st : LoopSt) (buf : β),
      ((driveIter ops r d st buf).state).rIdx =
        st.rIdx + (if st.buffer.length < REFILL_TRIGGER then 1 else 0)) ∧
    (∀ (r : Reader) (st : LoopSt) (bs : List Nat), r st.rIdx = .ok bs →
      (refill r st).2.buffer = st.buffer ++ bs.take REFILL_SCRATCH ∧
      (bs.take REFILL_SCRATCH).length ≤ REFILL_SCRATCH) := by
  refine ⟨Nat.mul_comm .., Nat.mul_comm .., Nat.mul_comm .., ?_, ?_⟩
  · intro β ops r d st buf
    unfold driveIter
    by_cases hlt : st.buffer.length < REFILL_TRIGGER
    · simp only [if_pos hlt]
      rcases hR : refill r st with ⟨res, st'⟩
      have hR' : st'.rIdx = st.rIdx + 1 := by
        unfold refill at hR
        rcases hr : r st.rIdx with e | bs <;> rw [hr] at hR <;> cases hR <;> rfl
      cases res with
      | error e => simpa [IterResult.state] using hR'
      | ok n => rw [classify_rIdx]; exact hR'
    · simp only [if_neg hlt, classify_rIdx]
      omega
  · intro r st bs h
    unfold refill
    rw [h]
    exact ⟨rfl, List.length_take_le ..⟩

/-- C8 witness: on a fresh decoder with a 4-byte reader, the iteration
performs exactly one read, and the refill appends the 4 staged bytes. -/
theorem refill_policy_and_sizing_witness :
    BUFFER_SIZE = 15 * MAX_SAMPLES_PER_FRAME ∧
    exReader4 initSt.rIdx = .ok [0, 0, 0, 0] ∧
    (refill exReader4 initSt).2.buffer = [0, 0, 0, 0] ∧
    ((driveIter PcmOps exReader4 exDecNil initSt Pcm.new).state).rIdx = 1 :=
  ⟨refill_policy_and_sizing.1, rfl,
   (refill_policy_and_sizing.2.2.2.2 exReader4 initSt [0, 0, 0, 0] rfl).1,
   refill_policy_and_sizing.2.2.2.1 Pcm PcmOps exReader4 exDecNil initSt Pcm.new⟩

/-- A `decode_frame` error on a `Pcm` implies the primitive produced no
samples (with a `Pcm`, the reservation never fails). -/
theorem decodeFramePcm_err_samples_zero (d : DecPrim) (st : LoopSt) (p : Pcm)
    (e : Error) (st' : LoopSt) (p' : Pcm)
    (h : decodeFrame PcmOps d st p = (.error e, st', p')) :
    (d st.dIdx st.buffer).samples = 0 := by
  by_cases h0 : (d st.dIdx st.buffer).samples = 0
  · exact h0
  · have hpos := Nat.pos_of_ne_zero h0
    simp [decodeFrame, PcmOps, h0, hpos] at h

/-- When the primitive is well formed (output length is channels × samples),
a spinning classification leaves a fresh `Pcm` untouched: transient outcomes
have zero samples, hence write nothing. -/
theorem classifyPcm_again_new (d : DecPrim) (st : LoopSt) (br : Option Nat)
    (st' : LoopSt) (p' : Pcm)
    (hwf : ∀ i b, (d i b).pcm.length = (d i b).channels * (d i b).samples)
    (h : classify PcmOps d st Pcm.new br = .again st' p') : p' = Pcm.new := by
  have hbuf := decodeFramePcm_buf d st Pcm.new
  unfold classify at h
  rcases hD : decodeFrame PcmOps d st Pcm.new with ⟨res, stD, pD⟩
  rw [hD] at h hbuf
  dsimp only at hbuf
  cases res with
  | ok fr => cases h
  | error e =>
    have hs0 := decodeFramePcm_err_samples_zero d st Pcm.new e stD pD hD
    have hnil : (d st.dIdx st.buffer).pcm = [] := by
      have hl := hwf st.dIdx st.buffer
      rw [hs0, Nat.mul_zero] at hl
      exact List.length_eq_zero.mp hl
    rw [hnil] at hbuf
    cases e with
    | insufficientData =>
      dsimp only at h
      by_cases hbr : br = some 0
      · rw [if_pos hbr] at h; cases h
      · rw [if_neg hbr] at h
        cases h
        exact hbuf.trans (pcmWrite_nil Pcm.new)
    | skippedData =>
      dsimp only at h
      by_cases hbr : br = some 0
      · rw [if_pos hbr] at h; cases h
      · rw [if_neg hbr] at h
        cases h
        exact hbuf.trans (pcmWrite_nil Pcm.new)
    | eof => dsimp only at h; cases h
    | io c => dsimp only at h; cases h
    | allocationFailure => dsimp only at h; cases h

/-- A spinning drive-loop iteration leaves a fresh `Pcm` untouched. -/
theorem driveIterPcm_again_new (r : Reader) (d : DecPrim) (st : LoopSt)
    (st' : LoopSt) (p' : Pcm)
    (hwf : ∀ i b, (d i b).pcm.length = (d i b).channels * (d i b).samples)
    (h : driveIter PcmOps r d st Pcm.new = .again st' p') : p' = Pcm.new := by
  unfold driveIter at h
  split at h
  · split at h
    · cases h
    · exact classifyPcm_again_new d _ _ _ _ hwf h
  · exact classifyPcm_again_new d _ _ _ _ hwf h

/-- A successful `decode_frame` on a `Pcm` means the primitive produced
samples; the returned metadata carries the primitive's channel count, the
decode counter advances by one, and the buffer is the old one with the
primitive's output written over its front. -/
theorem decodeFramePcm_ok (d : DecPrim) (st : LoopSt) (p : Pcm) (fr : FrameInfo)
    (st' : LoopSt) (p' : Pcm)
    (h : decodeFrame PcmOps d st p = (.ok fr, st', p')) :
    0 < (d st.dIdx st.buffer).samples ∧
    fr.channels = (d st.dIdx st.buffer).channels ∧
    st'.dIdx = st.dIdx + 1 ∧
    p' = pcmWrite p (d st.dIdx st.buffer).pcm := by
  by_cases h0 : (d st.dIdx st.buffer).samples = 0
  · by_cases hfb : 0 < (d st.dIdx st.buffer).frame_bytes <;>
      simp [decodeFrame, PcmOps, h0, hfb] at h
  · have hpos := Nat.pos_of_ne_zero h0
    simp only [decodeFrame, PcmOps, h0, hpos, if_pos, if_neg, Prod.mk.injEq] at h
    simp [h0, Prod.mk.injEq, Except.ok.injEq] at h
    obtain ⟨hf, hs, hp⟩ := h
    refine ⟨hpos, ?_, ?_, hp.symm⟩
    · rw [← hf]
    · rw [← hs]

/-- A successful classification starting from a fresh `Pcm` leaves exactly
the primitive's output for this call (its channels × samples written
values), followed by the zero padding of the initialization; the decode
counter records which call it was. -/
theorem classifyPcm_done_ok (d : DecPrim) (st : LoopSt) (br : Option Nat)
    (fr : FrameInfo) (st' : LoopSt) (p' : Pcm)
    (hwf : ∀ i b, (d i b).pcm.length = (d i b).channels * (d i b).samples)
    (h : classify PcmOps d st Pcm.new br = .done (.ok fr) st' p') :
    0 < (d st.dIdx st.buffer).samples ∧
    st'.dIdx = st.dIdx + 1 ∧
    fr.channels = (d st.dIdx st.buffer).channels ∧
    p'.data = (d st.dIdx st.buffer).pcm ++
      List.replicate (MAX_SAMPLES_PER_FRAME -
        (d st.dIdx st.buffer).channels * (d st.dIdx st.buffer).samples) 0 := by
  unfold classify at h
  rcases hD : decodeFrame PcmOps d st Pcm.new with ⟨res, stD, pD⟩
  rw [hD] at h
  cases res with
  | error e =>
    cases e with
    | insufficientData =>
      dsimp only at h
      by_cases hbr : br = some 0
      · rw [if_pos hbr] at h; cases h
      · rw [if_neg hbr] at h; cases h
    | skippedData =>
      dsimp only at h
      by_cases hbr : br = some 0
      · rw [if_pos hbr] at h; cases h
      · rw [if_neg hbr] at h; cases h
    | eof => dsimp only at h; cases h
    | io c => dsimp only at h; cases h
    | allocationFailure => dsimp only at h; cases h
  | ok fr2 =>
    dsimp only at h
    cases h
    obtain ⟨hpos, hch, hdi, hp⟩ := decodeFramePcm_ok d st Pcm.new _ _ _ hD
    refine ⟨hpos, hdi, hch, ?_⟩
    rw [hp, ← hwf st.dIdx st.buffer]
    simp [pcmWrite, Pcm.new, List.drop_replicate]

/-- A drive-loop iteration finishing successfully from a fresh `Pcm` leaves
exactly the output of one successful primitive call (the one the decode
counter records), followed by the zero padding. -/
theorem driveIterPcm_done_ok (r : Reader) (d : DecPrim) (st : LoopSt)
    (fr : FrameInfo) (st' : LoopSt) (p' : Pcm)
    (hwf : ∀ i b, (d i b).pcm.length = (d i b).channels * (d i b).samples)
    (h : driveIter PcmOps r d st Pcm.new = .done (.ok fr) st' p') :
    ∃ (k : Nat) (b : List Nat), st'.dIdx = k + 1 ∧ 0 < (d k b).samples ∧
      fr.channels = (d k b).channels ∧
      p'.data = (d k b).pcm ++
        List.replicate (MAX_SAMPLES_PER_FRAME - (d k b).channels * (d k b).samples) 0 := by
  unfold driveIter at h
  split at h
  · split at h
    · cases h
    · obtain ⟨hpos, hdi, hch, hdata⟩ := classifyPcm_done_ok d _ _ _ _ _ hwf h
      exact ⟨_, _, hdi, hpos, hch, hdata⟩
  · obtain ⟨hpos, hdi, hch, hdata⟩ := classifyPcm_done_ok d _ _ _ _ _ hwf h
    exact ⟨_, _, hdi, hpos, hch, hdata⟩

/-- A successful run of the drive loop started on a fresh `Pcm` yields
exactly the samples written by the final, successful primitive call —
whose index the returned decode counter records — followed by the zero
padding of the initialization. -/
theorem loopPcm_ok_shape (r : Reader) (d : DecPrim)
    (hwf : ∀ i b, (d i b).pcm.length = (d i b).channels * (d i b).samples) :
    ∀ (fuel : Nat) (st : LoopSt) (fi : FrameInfo) (st' : LoopSt) (p' : Pcm),
      nextFrameWithPcm PcmOps r d fuel st Pcm.new = some (.ok fi, st', p') →
      ∃ (k : Nat) (b : List Nat), st'.dIdx = k + 1 ∧ 0 < (d k b).samples ∧
        fi.channels = (d k b).channels ∧
        p'.data = (d k b).pcm ++
          List.replicate (MAX_SAMPLES_PER_FRAME - (d k b).channels * (d k b).samples) 0 := by
  intro fuel
  induction fuel with
  | zero => intro st fi st' p' h; cases h
  | succ n ih =>
    intro st fi st' p' h
    simp only [nextFrameWithPcm] at h
    cases hD : driveIter PcmOps r d st Pcm.new with
    | done res stD pD =>
      rw [hD] at h
      cases h
      exact driveIterPcm_done_ok r d st fi st' p' hwf hD
    | again stD pD =>
      rw [hD] at h
      rw [driveIterPcm_again_new r d st stD pD hwf hD] at h
      exact ih stD fi st' p' h

/-- C10: any frame `Ok`-returned by the convenience wrappers `next_frame` or
`next_frame_future` carries a data vector of length exactly
`MAX_SAMPLES_PER_FRAME`, equal to the pcm output of the final, successful
primitive call — the call whose index `k` the returned decode counter
records (`st'.dIdx = k + 1`), made on some buffer contents `b`, with
`samples > 0` and the frame's channel count — followed, past those
channels × samples decoded values, by exactly the zeros of `Pcm::new`'s
initialization (well-formed primitive: it writes channels × samples values,
at most a maximal frame). -/
theorem next_frame_data_padded (r : Reader) (d : DecPrim)
    (hwf : ∀ i b, (d i b).pcm.length = (d i b).channels * (d i b).samples)
    (hmax : ∀ i b, (d i b).pcm.length ≤ MAX_SAMPLES_PER_FRAME) :
    (∀ (fuel : Nat) (st : LoopSt) (f : Frame) (st' : LoopSt),
      nextFrame r d fuel st = some (.ok f, st') →
        f.data.length = MAX_SAMPLES_PER_FRAME ∧
        ∃ (k : Nat) (b : List Nat), st'.dIdx = k + 1 ∧ 0 < (d k b).samples ∧
          f.channels = (d k b).channels ∧
          f.data = (d k b).pcm ++
            List.replicate (MAX_SAMPLES_PER_FRAME - (d k b).channels * (d k b).samples) 0) ∧
    (∀ (fuel : Nat) (st : LoopSt) (f : Frame) (st' : LoopSt),
      nextFrameFuture r d fuel st = some (.ok f, st') →
        f.data.length = MAX_SAMPLES_PER_FRAME ∧
        ∃ (k : Nat) (b : List Nat), st'.dIdx = k + 1 ∧ 0 < (d k b).samples ∧
          f.channels = (d k b).channels ∧
          f.data = (d k b).pcm ++
            List.replicate (MAX_SAMPLES_PER_FRAME - (d k b).channels * (d k b).samples) 0) := by
  have main : ∀ (fuel : Nat) (st : LoopSt) (f : Frame) (st' : LoopSt),
      nextFrame r d fuel st = some (.ok f, st') →
        f.data.length = MAX_SAMPLES_PER_FRAME ∧
        ∃ (k : Nat) (b : List Nat), st'.dIdx = k + 1 ∧ 0 < (d k b).samples ∧
          f.channels = (d k b).channels ∧
          f.data = (d k b).pcm ++
            List.replicate (MAX_SAMPLES_PER_FRAME - (d k b).channels * (d k b).samples) 0 := by
    intro fuel st f st' h
    simp only [nextFrame] at h
    cases hW : nextFrameWithPcm PcmOps r d fuel st Pcm.new with
    | none => rw [hW] at h; cases h
    | some p =>
      rw [hW] at h
      obtain ⟨res, stW, pW⟩ := p
      cases res with
      | error e => cases h
      | ok fi =>
        cases h
        obtain ⟨k, b, hdi, hpos, hch, hdata⟩ :=
          loopPcm_ok_shape r d hwf fuel st _ _ _ hW
        refine ⟨?_, k, b, hdi, hpos, hch, hdata⟩
        rw [hdata, List.length_append, List.length_replicate, hwf k b]
        have hle : (d k b).channels * (d k b).samples ≤ MAX_SAMPLES_PER_FRAME := by
          rw [← hwf k b]; exact hmax k b
        omega
  exact ⟨main, fun fuel st f st' h =>
    main fuel st f st' (by rwa [nextFrameFuture_eq_nextFrame] at h)⟩

/-- C10 witness: a concrete 4-sample decode through `next_frame` yields a
frame whose data has length `MAX_SAMPLES_PER_FRAME`, and the concrete data
is the primitive's call-0 output followed by the initialization zeros. -/
theorem next_frame_data_padded_witness :
    (exDecOk 0 []).pcm.length ≤ MAX_SAMPLES_PER_FRAME ∧
    ([1, 2, 3, 4] ++ List.replicate 2300 (0 : Int)).length = MAX_SAMPLES_PER_FRAME ∧
    ([1, 2, 3, 4] ++ List.replicate 2300 (0 : Int) : List Int) =
      (exDecOk 0 [0, 0, 0, 0]).pcm ++
        List.replicate (MAX_SAMPLES_PER_FRAME -
          (exDecOk 0 [0, 0, 0, 0]).channels * (exDecOk 0 [0, 0, 0, 0]).samples) 0 :=
  ⟨by decide,
   ((next_frame_data_padded exReader4 exDecOk (fun i b => rfl)
      (fun i b => by show (4 : Nat) ≤ MAX_SAMPLES_PER_FRAME; decide)).1
     1 initSt ⟨[1, 2, 3, 4] ++ List.replicate 2300 0, 44100, 2, 3, 128⟩
     ⟨[], 1, 1⟩ rfl).1,
   rfl⟩

end Minimp3
